import Mathlib

/-!
Verification of `exp/superrotation/superrotation_nzforcing.py` from the Isca
repository (cbherbert/Isca).

The script configures a Matsuno-Gill experiment: it builds a namelist
(a dict of dicts of scalar/list values), builds a diagnostics table, merges
a user-supplied override mapping into default namelist values, and delegates
compilation and execution to the external `isca` framework.

The embedding below has three layers:
* a pure value-level model of Python dicts (`PyDict.lookup`, `PyDict.set`,
  `PyDict.update`) and of the merge loop in `MatsunoGillExperiment.__init__`;
* an event-trace model of the constructor's side effects (compile call,
  attaching the diag table and namelist, the optional resolution override,
  the `__main__` run call);
* a small heap model (addresses into a list of objects) that makes the
  mutable-default-argument and aliasing behaviour of the Python code
  explicit, used for the frame/non-interference claims.
-/

set_option autoImplicit false

namespace Superrotation

/-- Scalar or list values appearing in the namelist of the script.
Python int literals become `int`, float literals become `real` (they are
inert configuration data, never computed with, so exact rationals represent
them faithfully), strings become `str`, booleans `bool`.  The single list
literal in the script (`valid_range_t: [100., 800.]`) is a list of floats,
`realList`. -/
inductive Value where
  | int : Int → Value
  | real : Rat → Value
  | str : String → Value
  | bool : Bool → Value
  | realList : List Rat → Value
deriving DecidableEq, Repr

/-- A Python dict section of the namelist: parameter name to value.
Insertion-ordered association list with (in the Python source) unique keys. -/
abbrev SectionDict := List (String × Value)

/-- The namelist: section name to section dict. -/
abbrev NL := List (String × SectionDict)

namespace PyDict

/-- `d[k]` lookup / `k in d` membership of a Python dict (first match;
dicts never hold duplicate keys). -/
def lookup {V : Type} : List (String × V) → String → Option V
  | [], _ => none
  | p :: rest, k => if p.1 = k then some p.2 else lookup rest k

/-- `d[k] = v`: update the value at an existing key in place (keys keep
their position), or append a new key at the end — Python dict assignment. -/
def set {V : Type} : List (String × V) → String → V → List (String × V)
  | [], k, v => [(k, v)]
  | p :: rest, k, v => if p.1 = k then (k, v) :: rest else p :: set rest k v

/-- `d.update(other)`: Python's shallow dict update, assigning every
key/value pair of `other` into `d` in order. -/
def update {V : Type} (d other : List (String × V)) : List (String × V) :=
  List.foldl (fun acc p => set acc p.1 p.2) d other

end PyDict

/-- The default namelist of `MatsunoGillExperiment.default_namelist`,
transcribed section by section from the source (`200.e2` = 20000,
`1.0e5` = 100000). -/
def default_namelist : NL :=
  [ ("main_nml",
      [ ("dt_atmos", .int 300),
        ("days", .int 1800),
        ("current_time", .int 0),
        ("calendar", .str "no_calendar") ]),
    ("atmosphere_nml",
      [ ("idealized_moist_model", .bool false) ]),
    ("spectral_dynamics_nml",
      [ ("damping_order", .int 4),
        ("water_correction_limit", .real 20000),
        ("reference_sea_level_press", .real 100000),
        ("valid_range_t", .realList [100, 800]),
        ("initial_sphum", .real 0),
        ("vert_coord_option", .str "uneven_sigma"),
        ("scale_heights", .real 6),
        ("exponent", .real (15/2)),
        ("surf_res", .real (1/2)) ]),
    ("hs_forcing_nml",
      [ ("t_zero", .real 315),
        ("t_strat", .real 200),
        ("delh", .real 40),
        ("delv", .real 10),
        ("eps", .real 0),
        ("sigma_b", .real (7/10)),
        ("ka", .real (-40)),
        ("ks", .real (-4)),
        ("kf", .real (-1)),
        ("do_conserve_energy", .bool true) ]),
    ("atf_forcing_nml",
      [ ("q0atf", .real 0) ]),
    ("diag_manager_nml",
      [ ("mix_snapshot_average_fields", .bool false) ]),
    ("fms_nml",
      [ ("domains_stack_size", .int 600000) ]),
    ("fms_io_nml",
      [ ("threading_write", .str "single"),
        ("fileset_write", .str "single") ]) ]

/-- The merge loop of `MatsunoGillExperiment.__init__`:
one iteration of
`for key in namelist_mod: if key in namelist: namelist[key].update(namelist_mod[key]) else: namelist[key] = namelist_mod[key]`
at the entry `p` of the override mapping (Python iterates the dict's keys
in insertion order; its keys are unique). -/
def mergeStep (nl : NL) (p : String × SectionDict) : NL :=
  match PyDict.lookup nl p.1 with
  | some d => PyDict.set nl p.1 (PyDict.update d p.2)
  | none => PyDict.set nl p.1 p.2

/-- The whole merge loop: fold `mergeStep` over the override mapping. -/
def mergeNamelist (defaults namelist_mod : NL) : NL :=
  List.foldl mergeStep defaults namelist_mod

/-- Modelled from the spec: a diagnostic-file registration of the external
`DiagTable.add_file` — a named output file with a cadence (value + unit)
and time units. -/
structure DiagFileSpec where
  fname : String
  freq : Int
  funits : String
  time_units : String
deriving DecidableEq, Repr

/-- Modelled from the spec: a field registration of the external
`DiagTable.add_field` — a (module, field-name, averaging-flag) triple. -/
structure DiagFieldSpec where
  module : String
  fieldName : String
  time_avg : Bool
deriving DecidableEq, Repr

/-- Modelled from the spec: the diagnostic spec is an ordered list of field
registrations grouped under registered output files. -/
structure DiagTable where
  files : List DiagFileSpec
  fields : List DiagFieldSpec
deriving DecidableEq, Repr

/-- Modelled from the spec: `DiagTable()` starts with no registrations. -/
def DiagTable.empty : DiagTable := ⟨[], []⟩

/-- Modelled from the spec: `add_file` appends a file registration. -/
def DiagTable.add_file (d : DiagTable) (fname : String) (freq : Int)
    (funits time_units : String) : DiagTable :=
  ⟨d.files ++ [⟨fname, freq, funits, time_units⟩], d.fields⟩

/-- Modelled from the spec: `add_field` appends a (module, field-name,
averaging-flag) registration; in the script the flag defaults to `False`
when the `time_avg` keyword is omitted. -/
def DiagTable.add_field (d : DiagTable) (module fieldName : String)
    (time_avg : Bool) : DiagTable :=
  ⟨d.files, d.fields ++ [⟨module, fieldName, time_avg⟩]⟩

/-- `MatsunoGillExperiment.build_diag_table(output_freq, output_avg)`,
transcribed call by call from the source.  The `bk` and `pk` fields omit
the `time_avg` keyword, so they always get the default `False`. -/
def build_diag_table (output_freq : Int) (output_avg : Bool) : DiagTable :=
  let diag := DiagTable.empty
  let diag := diag.add_file "atmos_monthly" output_freq "days" "days"
  let diag := diag.add_field "dynamics" "ps" output_avg
  let diag := diag.add_field "dynamics" "bk" false
  let diag := diag.add_field "dynamics" "pk" false
  let diag := diag.add_field "dynamics" "ucomp" output_avg
  let diag := diag.add_field "dynamics" "vcomp" output_avg
  let diag := diag.add_field "dynamics" "temp" output_avg
  let diag := diag.add_field "dynamics" "vor" output_avg
  let diag := diag.add_field "dynamics" "div" output_avg
  let diag := diag.add_field "hs_forcing" "q_eqf" output_avg
  diag

/-- The experiment handle as far as this script configures it: the name,
the attached diag table and the attached namelist. -/
structure MatsunoGill where
  name : String
  diag_table : DiagTable
  namelist : NL
deriving DecidableEq, Repr

/-- The pure configuration part of `MatsunoGillExperiment.__init__`:
attach `build_diag_table(output_freq, False)` and the default namelist
updated by `namelist_mod`. -/
def MatsunoGillExperiment.mk (name : String) (output_freq : Int)
    (namelist_mod : NL) : MatsunoGill :=
  ⟨name, build_diag_table output_freq false,
    mergeNamelist default_namelist namelist_mod⟩

/-- `NCORES = 16` from the script. -/
def NCORES : Nat := 16

/-- `RESOLUTION = 'T42', 25` from the script. -/
def RESOLUTION : String × Nat := ("T42", 25)

/-- The `namelist_mod` passed at module level when constructing `exp`. -/
def script_namelist_mod : NL :=
  [ ("atf_forcing_nml",
      [ ("q0atf", .real 1),
        ("cfatf", .int 0),
        ("katf", .int 2),
        ("dphiatf", .real 10) ]),
    ("main_nml",
      [ ("days", .int 18000) ]) ]

/-- The module-level experiment `exp` of the script (its pure
configuration part). -/
def script_exp : MatsunoGill :=
  MatsunoGillExperiment.mk "superrotation_nzforcing_q1_long" 1000
    script_namelist_mod

/-! ### Lemmas about the value-level dict operations and the merge -/

theorem PyDict.lookup_set_self {V : Type} (d : List (String × V)) (k : String) (v : V) :
    PyDict.lookup (PyDict.set d k v) k = some v := by
  induction d with
  | nil => simp [PyDict.set, PyDict.lookup]
  | cons p rest ih =>
    by_cases h : p.1 = k
    · simp [PyDict.set, h, PyDict.lookup]
    · simp [PyDict.set, h, PyDict.lookup, ih]

theorem PyDict.lookup_set_ne {V : Type} (d : List (String × V)) (k k' : String) (v : V)
    (h : k ≠ k') : PyDict.lookup (PyDict.set d k v) k' = PyDict.lookup d k' := by
  induction d with
  | nil => simp [PyDict.set, PyDict.lookup, h]
  | cons p rest ih =>
    by_cases hp : p.1 = k
    · simp [PyDict.set, hp, PyDict.lookup, h, hp ▸ h]
    · simp [PyDict.set, hp, PyDict.lookup, ih]

theorem mergeStep_lookup_ne (nl : NL) (p : String × SectionDict) (k : String)
    (h : p.1 ≠ k) : PyDict.lookup (mergeStep nl p) k = PyDict.lookup nl k := by
  unfold mergeStep
  cases PyDict.lookup nl p.1 with
  | none => exact PyDict.lookup_set_ne _ _ _ _ h
  | some d => exact PyDict.lookup_set_ne _ _ _ _ h

theorem mergeNamelist_lookup_not_mem (defaults namelist_mod : NL) (k : String)
    (h : ∀ p ∈ namelist_mod, p.1 ≠ k) :
    PyDict.lookup (mergeNamelist defaults namelist_mod) k = PyDict.lookup defaults k := by
  induction namelist_mod generalizing defaults with
  | nil => rfl
  | cons p rest ih =>
    show PyDict.lookup (mergeNamelist (mergeStep defaults p) rest) k = _
    rw [ih (mergeStep defaults p) (fun q hq => h q (List.mem_cons_of_mem p hq))]
    exact mergeStep_lookup_ne defaults p k (h p (List.mem_cons_self p rest))

theorem mergeNamelist_lookup_mem (defaults namelist_mod : NL) (k : String) (m : SectionDict)
    (hnd : (namelist_mod.map Prod.fst).Nodup)
    (hm : PyDict.lookup namelist_mod k = some m) :
    PyDict.lookup (mergeNamelist defaults namelist_mod) k =
      some (match PyDict.lookup defaults k with
            | some d => PyDict.update d m
            | none => m) := by
  induction namelist_mod generalizing defaults with
  | nil => cases hm
  | cons p rest ih =>
    obtain ⟨k₀, m₀⟩ := p
    by_cases hk : k₀ = k
    · subst hk
      have hm' : m₀ = m := by
        simpa [PyDict.lookup] using hm
      subst hm'
      have hrest : ∀ q ∈ rest, q.1 ≠ k₀ := by
        intro q hq hcontra
        have : k₀ ∈ rest.map Prod.fst := hcontra ▸ List.mem_map_of_mem Prod.fst hq
        exact (List.nodup_cons.mp (by simpa using hnd)).1 this
      show PyDict.lookup (mergeNamelist (mergeStep defaults (k₀, m₀)) rest) k₀ = _
      rw [mergeNamelist_lookup_not_mem _ _ _ hrest]
      unfold mergeStep
      cases hd : PyDict.lookup defaults k₀ with
      | none => simp [PyDict.lookup_set_self]
      | some d => simp [PyDict.lookup_set_self]
    · have hm' : PyDict.lookup rest k = some m := by
        simpa [PyDict.lookup, hk] using hm
      have hnd' : (rest.map Prod.fst).Nodup := (List.nodup_cons.mp (by simpa using hnd)).2
      show PyDict.lookup (mergeNamelist (mergeStep defaults (k₀, m₀)) rest) k = _
      rw [ih (mergeStep defaults (k₀, m₀)) hnd' hm',
        mergeStep_lookup_ne defaults (k₀, m₀) k hk]

/-! ### Claims about the merge and the diagnostic table -/

/-- C1: for every override mapping and every section key present in both the
override mapping and the default namelist, construction merges the overriding
keys into the default section by shallow `dict.update`; in particular merging
`{'a': {'x': 1}}` into defaults containing `'a': {'x': 0, 'y': 2}` yields
`'a': {'x': 1, 'y': 2}`, keys absent from the override section keeping their
default values. -/
theorem claim1_construction_shallow_merge :
    (∀ (name : String) (output_freq : Int) (namelist_mod : NL)
        (k : String) (d m : SectionDict),
        (namelist_mod.map Prod.fst).Nodup →
        PyDict.lookup default_namelist k = some d →
        PyDict.lookup namelist_mod k = some m →
        PyDict.lookup (MatsunoGillExperiment.mk name output_freq namelist_mod).namelist k =
          some (PyDict.update d m))
    ∧ mergeNamelist [("a", [("x", Value.int 0), ("y", Value.int 2)])]
        [("a", [("x", Value.int 1)])]
      = [("a", [("x", Value.int 1), ("y", Value.int 2)])] := by
  constructor
  · intro name output_freq namelist_mod k d m hnd hd hm
    show PyDict.lookup (mergeNamelist default_namelist namelist_mod) k = _
    rw [mergeNamelist_lookup_mem default_namelist namelist_mod k m hnd hm, hd]
  · rfl

/-- Witness for C1: overriding `days` in `main_nml` at a concrete construction. -/
theorem claim1_construction_shallow_merge_witness :
    PyDict.lookup
      (MatsunoGillExperiment.mk "w" 90
        [("main_nml", [("days", Value.int 18000)])]).namelist "main_nml" =
      some (PyDict.update
        [ ("dt_atmos", Value.int 300), ("days", Value.int 1800),
          ("current_time", Value.int 0), ("calendar", Value.str "no_calendar") ]
        [("days", Value.int 18000)]) :=
  claim1_construction_shallow_merge.1 "w" 90 [("main_nml", [("days", Value.int 18000)])]
    "main_nml" _ _ (by decide) rfl rfl

/-- C4: an override section whose name is not among the default namelist's
sections is inserted wholesale: the constructed configuration contains it
with exactly the override's key/value pairs. -/
theorem claim4_new_section_inserted_wholesale (name : String) (output_freq : Int)
    (namelist_mod : NL) (k : String) (m : SectionDict)
    (hnd : (namelist_mod.map Prod.fst).Nodup)
    (hd : PyDict.lookup default_namelist k = none)
    (hm : PyDict.lookup namelist_mod k = some m) :
    PyDict.lookup (MatsunoGillExperiment.mk name output_freq namelist_mod).namelist k =
      some m := by
  show PyDict.lookup (mergeNamelist default_namelist namelist_mod) k = some m
  rw [mergeNamelist_lookup_mem default_namelist namelist_mod k m hnd hm, hd]

/-- Witness for C4: the script's own `atf_forcing_nml` extension pattern with a
section name absent from the defaults. -/
theorem claim4_new_section_inserted_wholesale_witness :
    PyDict.lookup
      (MatsunoGillExperiment.mk "w" 90
        [("brand_new_nml", [("q0atf", Value.real 1)])]).namelist "brand_new_nml" =
      some [("q0atf", Value.real 1)] :=
  claim4_new_section_inserted_wholesale "w" 90
    [("brand_new_nml", [("q0atf", Value.real 1)])] "brand_new_nml"
    [("q0atf", Value.real 1)] (by decide) rfl rfl

/-- C9: every default section whose name is absent from the override mapping
appears in the constructed configuration with exactly its default key/value
pairs, untouched by the merge. -/
theorem claim9_untouched_sections_keep_defaults (name : String) (output_freq : Int)
    (namelist_mod : NL) (k : String) (d : SectionDict)
    (hd : PyDict.lookup default_namelist k = some d)
    (hk : k ∉ namelist_mod.map Prod.fst) :
    PyDict.lookup (MatsunoGillExperiment.mk name output_freq namelist_mod).namelist k =
      some d := by
  show PyDict.lookup (mergeNamelist default_namelist namelist_mod) k = some d
  rw [mergeNamelist_lookup_not_mem default_namelist namelist_mod k
    (fun p hp hcontra => hk (hcontra ▸ List.mem_map_of_mem Prod.fst hp)), hd]

/-- Witness for C9: the script's own override leaves `hs_forcing_nml` at its
default contents. -/
theorem claim9_untouched_sections_keep_defaults_witness :
    PyDict.lookup
      (MatsunoGillExperiment.mk "w" 90 script_namelist_mod).namelist "hs_forcing_nml" =
      some
        [ ("t_zero", Value.real 315),
          ("t_strat", Value.real 200),
          ("delh", Value.real 40),
          ("delv", Value.real 10),
          ("eps", Value.real 0),
          ("sigma_b", Value.real (7/10)),
          ("ka", Value.real (-40)),
          ("ks", Value.real (-4)),
          ("kf", Value.real (-1)),
          ("do_conserve_energy", Value.bool true) ] :=
  claim9_untouched_sections_keep_defaults "w" 90 script_namelist_mod "hs_forcing_nml"
    _ rfl (by decide)

/-- C2: the diagnostic table is a pure function of the output frequency and
the averaging flag; building it with flag `False` registers the same
(module, field) list, in the same order, and the same file as with `True`;
either table has exactly nine field registrations and one file registration. -/
theorem claim2_diag_table_shape (output_freq : Int) :
    ((build_diag_table output_freq false).fields.map (fun f => (f.module, f.fieldName))
      = (build_diag_table output_freq true).fields.map (fun f => (f.module, f.fieldName)))
    ∧ (build_diag_table output_freq false).files = (build_diag_table output_freq true).files
    ∧ (build_diag_table output_freq false).fields.length = 9
    ∧ (build_diag_table output_freq true).fields.length = 9
    ∧ (build_diag_table output_freq false).files.length = 1
    ∧ (build_diag_table output_freq true).files.length = 1 :=
  ⟨rfl, rfl, rfl, rfl, rfl, rfl⟩

/-! ### Event-trace model of the constructor and of the entry point -/

/-- Observable external effects of the script, in source order: the
`codebase.compile()` call, the `Experiment.__init__(self, name, codebase)`
call, attaching `self.diag_table`, attaching `self.namelist`, the optional
`self.set_resolution(*kwargs['resolution'])` call, and an `exp.run(...)`
call. -/
inductive Event where
  | compileCall
  | initExperiment (name : String)
  | attachDiagTable (d : DiagTable)
  | attachNamelist (nl : NL)
  | setResolution (res : String × Nat)
  | runCall (expName : String) (segment numCores : Nat) (useRestart : Bool)
      (mpirunOpts : String)
deriving DecidableEq, Repr

/-- Whether an event attaches model configuration (diag table or namelist)
to the handle. -/
def Event.isAttach : Event → Bool
  | .attachDiagTable _ => true
  | .attachNamelist _ => true
  | _ => false

/-- Whether an event is a run of the experiment. -/
def Event.isRun : Event → Bool
  | .runCall _ _ _ _ _ => true
  | _ => false

/-- `MatsunoGillExperiment.__init__` as the trace of its external effects
together with its result.  `compileResult` stands for the outcome of the
blocking `codebase.compile()` call; on failure the Python exception
propagates out of the constructor at once (the script has no try/except),
so the trace ends after the compile call and the error value is returned
unchanged. -/
def initRunE (compileResult : Except String Unit) (name : String)
    (output_freq : Int) (namelist_mod : NL)
    (resolution : Option (String × Nat)) :
    List Event × Except String MatsunoGill :=
  match compileResult with
  | .error e => ([Event.compileCall], .error e)
  | .ok _ =>
    let st := MatsunoGillExperiment.mk name output_freq namelist_mod
    ([Event.compileCall, Event.initExperiment name,
      Event.attachDiagTable st.diag_table, Event.attachNamelist st.namelist]
      ++ (match resolution with
          | some r => [Event.setResolution r]
          | none => []),
      .ok st)

/-- The `if __name__ == '__main__'` block of the script:
`exp.run(1, num_cores=NCORES, use_restart=False, mpirun_opts=' '.join(sys.argv[1:]))`. -/
def scriptMain (sysArgv : List String) : List Event :=
  [Event.runCall script_exp.name 1 NCORES false
    (String.intercalate " " (sysArgv.drop 1))]

/-- C5: in every construction the `codebase.compile()` call is the first
effect, and every attachment of model configuration (diag table or
namelist) happens at a strictly later position of the trace. -/
theorem claim5_compile_before_config (compileResult : Except String Unit)
    (name : String) (output_freq : Int) (namelist_mod : NL)
    (resolution : Option (String × Nat)) (i : Nat) (e : Event)
    (hi : (initRunE compileResult name output_freq namelist_mod resolution).1[i]? = some e)
    (he : e.isAttach = true) :
    (initRunE compileResult name output_freq namelist_mod resolution).1[0]? =
      some Event.compileCall ∧ 0 < i := by
  cases compileResult with
  | error err =>
    exfalso
    match i with
    | 0 =>
      simp [initRunE] at hi
      subst hi
      simp [Event.isAttach] at he
    | n + 1 => simp [initRunE] at hi
  | ok u =>
    cases resolution with
    | none =>
      match i with
      | 0 =>
        simp [initRunE] at hi
        subst hi
        simp [Event.isAttach] at he
      | 1 =>
        simp [initRunE] at hi
        subst hi
        simp [Event.isAttach] at he
      | 2 => exact ⟨by simp [initRunE], by omega⟩
      | 3 => exact ⟨by simp [initRunE], by omega⟩
      | n + 4 => simp [initRunE] at hi
    | some r =>
      match i with
      | 0 =>
        simp [initRunE] at hi
        subst hi
        simp [Event.isAttach] at he
      | 1 =>
        simp [initRunE] at hi
        subst hi
        simp [Event.isAttach] at he
      | 2 => exact ⟨by simp [initRunE], by omega⟩
      | 3 => exact ⟨by simp [initRunE], by omega⟩
      | 4 =>
        simp [initRunE] at hi
        subst hi
        simp [Event.isAttach] at he
      | n + 5 => simp [initRunE] at hi

/-- Witness for C5: the diag-table attachment of a concrete successful
construction sits strictly after the compile call. -/
theorem claim5_compile_before_config_witness :
    (initRunE (.ok ()) "w" 90 [] none).1[0]? = some Event.compileCall ∧ 0 < 2 :=
  claim5_compile_before_config (.ok ()) "w" 90 [] none 2
    (Event.attachDiagTable (build_diag_table 90 false)) rfl rfl

/-- C6: executing the script as entry point performs exactly one run — of the
experiment named `superrotation_nzforcing_q1_long`, at segment index 1,
without restart, on 16 cores — and the command-line arguments are joined
and forwarded verbatim as the launcher (`mpirun_opts`) string. -/
theorem claim6_main_single_run (sysArgv : List String) :
    (scriptMain sysArgv).length = 1
    ∧ ∀ e ∈ scriptMain sysArgv,
        e = Event.runCall "superrotation_nzforcing_q1_long" 1 16 false
          (String.intercalate " " (sysArgv.drop 1)) := by
  refine ⟨rfl, ?_⟩
  intro e he
  simp [scriptMain] at he
  subst he
  rw [List.drop_one]
  rfl

/-- Witness for C6: the single run event at a concrete argument vector. -/
theorem claim6_main_single_run_witness :
    Event.runCall script_exp.name 1 NCORES false
        (String.intercalate " " (["prog", "opt1", "opt2"].drop 1))
      = Event.runCall "superrotation_nzforcing_q1_long" 1 16 false
          (String.intercalate " " (["prog", "opt1", "opt2"].drop 1)) :=
  (claim6_main_single_run ["prog", "opt1", "opt2"]).2 _ (by simp [scriptMain])

/-- C7: in a successful construction the resolution override is applied iff
the `resolution` keyword argument is supplied; when applied it comes
strictly after both the diag-table and the namelist attachments; and the
constructor performs no run. -/
theorem claim7_resolution_override (name : String) (output_freq : Int)
    (namelist_mod : NL) (resolution : Option (String × Nat)) :
    (∀ r : String × Nat,
        Event.setResolution r ∈
            (initRunE (.ok ()) name output_freq namelist_mod resolution).1 ↔
          resolution = some r)
    ∧ (∀ (i : Nat) (r : String × Nat),
        (initRunE (.ok ()) name output_freq namelist_mod resolution).1[i]? =
            some (Event.setResolution r) →
          ∃ j k, j < i ∧ k < i ∧
            (initRunE (.ok ()) name output_freq namelist_mod resolution).1[j]? =
              some (Event.attachDiagTable
                (MatsunoGillExperiment.mk name output_freq namelist_mod).diag_table) ∧
            (initRunE (.ok ()) name output_freq namelist_mod resolution).1[k]? =
              some (Event.attachNamelist
                (MatsunoGillExperiment.mk name output_freq namelist_mod).namelist))
    ∧ (∀ e ∈ (initRunE (.ok ()) name output_freq namelist_mod resolution).1,
        e.isRun = false) := by
  refine ⟨?_, ?_, ?_⟩
  · intro r
    cases resolution with
    | none => simp [initRunE]
    | some r₀ =>
      simp [initRunE]
      exact eq_comm
  · intro i r hi
    cases resolution with
    | none =>
      exfalso
      match i with
      | 0 => simp [initRunE] at hi
      | 1 => simp [initRunE] at hi
      | 2 => simp [initRunE] at hi
      | 3 => simp [initRunE] at hi
      | n + 4 => simp [initRunE] at hi
    | some r₀ =>
      match i with
      | 0 => simp [initRunE] at hi
      | 1 => simp [initRunE] at hi
      | 2 => simp [initRunE] at hi
      | 3 => simp [initRunE] at hi
      | 4 => exact ⟨2, 3, by omega, by omega, by simp [initRunE], by simp [initRunE]⟩
      | n + 5 => simp [initRunE] at hi
  · intro e he
    cases resolution with
    | none =>
      simp [initRunE] at he
      rcases he with rfl | rfl | rfl | rfl <;> rfl
    | some r₀ =>
      simp [initRunE] at he
      rcases he with rfl | rfl | rfl | rfl | rfl <;> rfl

/-- Witness for C7: the script's own `resolution=RESOLUTION` argument makes
the override event appear in the trace. -/
theorem claim7_resolution_override_witness :
    Event.setResolution RESOLUTION ∈
      (initRunE (.ok ()) "w" 90 [] (some RESOLUTION)).1 :=
  ((claim7_resolution_override "w" 90 [] (some RESOLUTION)).1 RESOLUTION).mpr rfl

/-- C8: the script has no error handling: a compile failure propagates out of
the constructor unchanged and untranslated, and in that case no
configuration (diag table or namelist) is ever attached to the handle. -/
theorem claim8_no_error_handling (name : String) (output_freq : Int)
    (namelist_mod : NL) (resolution : Option (String × Nat)) (err : String) :
    (initRunE (.error err) name output_freq namelist_mod resolution).2 = .error err
    ∧ ∀ e ∈ (initRunE (.error err) name output_freq namelist_mod resolution).1,
        e.isAttach = false := by
  refine ⟨rfl, ?_⟩
  intro e he
  simp [initRunE] at he
  subst he
  rfl

/-- Witness for C8: a concrete failed compilation. -/
theorem claim8_no_error_handling_witness :
    Event.compileCall.isAttach = false :=
  (claim8_no_error_handling "w" 90 [] none "compilation failed").2
    Event.compileCall (by simp [initRunE])

/-! ### Heap model for the mutable-default-argument / aliasing claims

Python dicts are mutable objects.  The merge loop mutates the sections of
the freshly built default namelist in place (`namelist[key].update(...)`)
and aliases override sections into the namelist (`namelist[key] =
namelist_mod[key]`), while `namelist_mod={}` is a function default shared
by every construction that omits the argument.  To settle the frame claims
we model the constructor over an explicit heap of dict objects. -/

/-- A heap object: a section dict (parameter names to scalar values) or a
top-level dict (section names to addresses of section dicts). -/
inductive Obj where
  | sec : SectionDict → Obj
  | top : List (String × Nat) → Obj
deriving DecidableEq, Repr

/-- The heap: objects addressed by position; allocation appends. -/
abbrev Heap := List Obj

/-- Read the section dict at an address (`[]` when the address does not
hold one; the Python code never hits that case). -/
def Heap.readSec (h : Heap) (a : Nat) : SectionDict :=
  match h[a]? with
  | some (Obj.sec s) => s
  | _ => []

/-- Read the top-level dict at an address. -/
def Heap.readTop (h : Heap) (a : Nat) : List (String × Nat) :=
  match h[a]? with
  | some (Obj.top t) => t
  | _ => []

/-- Mutate the object at an address. -/
def Heap.write (h : Heap) (a : Nat) (o : Obj) : Heap := h.set a o

/-- Addresses handed out for the fresh section dicts of a namelist literal,
paired with their section names. -/
def allocEntries (base : Nat) : NL → List (String × Nat)
  | [] => []
  | s :: rest => (s.1, base) :: allocEntries (base + 1) rest

/-- Allocation of the dict-of-dicts literal built by
`self.default_namelist()`: every section dict is a fresh object, and the
top-level dict maps the section names to those fresh addresses. -/
def allocNamelist (h : Heap) (sections : NL) : Heap × Nat :=
  (h ++ sections.map (fun s => Obj.sec s.2)
     ++ [Obj.top (allocEntries h.length sections)],
   h.length + sections.length)

/-- One iteration of the constructor's merge loop on the heap, for the key
`key` of the override dict at `modAddr`:
`if key in namelist: namelist[key].update(namelist_mod[key]) else: namelist[key] = namelist_mod[key]`.
The if-branch mutates the section object the namelist holds; the
else-branch aliases the override's section object into the namelist. -/
def mergeStepH (h : Heap) (nlAddr modAddr : Nat) (key : String) : Heap :=
  match PyDict.lookup (h.readTop modAddr) key with
  | none => h
  | some mAddr =>
    match PyDict.lookup (h.readTop nlAddr) key with
    | some secAddr =>
        h.write secAddr
          (Obj.sec (PyDict.update (h.readSec secAddr) (h.readSec mAddr)))
    | none =>
        h.write nlAddr (Obj.top (PyDict.set (h.readTop nlAddr) key mAddr))

/-- The whole merge loop on the heap, iterating over the override dict's
keys (grabbed at loop entry; the loop body never changes them). -/
def mergeLoopH (h : Heap) (nlAddr modAddr : Nat) : List String → Heap
  | [] => h
  | key :: rest => mergeLoopH (mergeStepH h nlAddr modAddr key) nlAddr modAddr rest

/-- An experiment handle in the heap model: its name and the address of its
namelist's top-level dict. -/
structure ExperimentH where
  name : String
  nlAddr : Nat
deriving DecidableEq, Repr

/-- `MatsunoGillExperiment.__init__` in the heap model (the namelist part):
allocate the fresh default namelist, then run the merge loop against the
override dict found at `modAddr`. -/
def initExpH (h : Heap) (name : String) (modAddr : Nat) : Heap × ExperimentH :=
  let alloc := allocNamelist h default_namelist
  (mergeLoopH alloc.1 alloc.2 modAddr ((alloc.1.readTop modAddr).map Prod.fst),
   ⟨name, alloc.2⟩)

/-- A sequence of constructions all passing the override dict at `modAddr`
(when the caller omits `namelist_mod`, that address is the one shared
function-default dict). -/
def constructSeq (h : Heap) (modAddr : Nat) : List String → Heap
  | [] => h
  | name :: rest => constructSeq (initExpH h name modAddr).1 modAddr rest

/-- A well-formed reference to an override dict: a valid address whose
top-level dict has unique keys and valid section addresses — every actual
Python dict satisfies this. -/
abbrev validModRef (h : Heap) (m : Nat) : Prop :=
  m < h.length ∧ ((h.readTop m).map Prod.fst).Nodup ∧
    ∀ p ∈ h.readTop m, p.2 < h.length

/-! ### Lemmas about the heap model -/

theorem PyDict.lookup_mem {V : Type} (d : List (String × V)) (k : String) (v : V)
    (h : PyDict.lookup d k = some v) : (k, v) ∈ d := by
  induction d with
  | nil => cases h
  | cons p rest ih =>
    obtain ⟨a, b⟩ := p
    by_cases hp : a = k
    · subst hp
      have hb : b = v := by simpa [PyDict.lookup] using h
      subst hb
      exact List.mem_cons_self _ _
    · have h' : PyDict.lookup rest k = some v := by simpa [PyDict.lookup, hp] using h
      exact List.mem_cons_of_mem _ (ih h')

theorem PyDict.mem_set {V : Type} (d : List (String × V)) (k : String) (v : V)
    (q : String × V) (h : q ∈ PyDict.set d k v) : q = (k, v) ∨ q ∈ d := by
  induction d with
  | nil => exact Or.inl (by simpa [PyDict.set] using h)
  | cons p rest ih =>
    by_cases hp : p.1 = k
    · simp only [PyDict.set, hp, if_pos rfl] at h
      rcases List.mem_cons.mp h with h' | h'
      · exact Or.inl h'
      · exact Or.inr (List.mem_cons_of_mem p h')
    · simp only [PyDict.set, hp, if_neg hp] at h
      rcases List.mem_cons.mp h with h' | h'
      · exact Or.inr (h' ▸ List.mem_cons_self p rest)
      · rcases ih h' with h'' | h''
        · exact Or.inl h''
        · exact Or.inr (List.mem_cons_of_mem p h'')

theorem Heap.getElem?_write_ne (h : Heap) (a b : Nat) (o : Obj) (hab : a ≠ b) :
    (h.write a o)[b]? = h[b]? :=
  List.getElem?_set_ne hab

theorem Heap.readTop_write_ne (h : Heap) (a b : Nat) (o : Obj) (hab : a ≠ b) :
    (h.write a o).readTop b = h.readTop b := by
  unfold Heap.readTop
  rw [Heap.getElem?_write_ne h a b o hab]

theorem Heap.readSec_write_ne (h : Heap) (a b : Nat) (o : Obj) (hab : a ≠ b) :
    (h.write a o).readSec b = h.readSec b := by
  unfold Heap.readSec
  rw [Heap.getElem?_write_ne h a b o hab]

theorem Heap.readTop_write_self (h : Heap) (a : Nat) (t : List (String × Nat))
    (ha : a < h.length) : (h.write a (Obj.top t)).readTop a = t := by
  unfold Heap.readTop Heap.write
  rw [List.getElem?_set_eq_of_lt _ ha]

theorem Heap.length_write (h : Heap) (a : Nat) (o : Obj) :
    (h.write a o).length = h.length :=
  List.length_set h a o

theorem Heap.readTop_congr (h1 h2 : Heap) (a : Nat) (he : h1[a]? = h2[a]?) :
    h1.readTop a = h2.readTop a := by
  unfold Heap.readTop
  rw [he]

theorem Heap.readSec_congr (h1 h2 : Heap) (a : Nat) (he : h1[a]? = h2[a]?) :
    h1.readSec a = h2.readSec a := by
  unfold Heap.readSec
  rw [he]

/-- One iteration of the heap merge loop: provided the override dict lives
below `h0len`, the namelist top dict at `nlAddr` is fresh (`h0len ≤
nlAddr`), and every key of `keys` held by the namelist top dict maps into
the fresh section range `[h0len, nlAddr)`, the iteration (i) leaves every
address below `h0len` untouched, (ii) only adds override-provided
addresses to the namelist top dict, and only at the processed key,
(iii) keeps the heap length, (iv) leaves the override top dict unread. -/
theorem mergeStepH_spec (h0len nlAddr modAddr : Nat) (key : String)
    (keys : List String) (h : Heap)
    (hmod : modAddr < h0len) (hnl : h0len ≤ nlAddr) (hlen : nlAddr < h.length)
    (hinv : ∀ p ∈ h.readTop nlAddr, p.1 ∈ keys → h0len ≤ p.2 ∧ p.2 < nlAddr)
    (hkmem : key ∈ keys) :
    (∀ b, b < h0len → (mergeStepH h nlAddr modAddr key)[b]? = h[b]?)
    ∧ (∀ p ∈ (mergeStepH h nlAddr modAddr key).readTop nlAddr,
        (p ∈ h.readTop nlAddr ∨ p.2 ∈ (h.readTop modAddr).map Prod.snd)
        ∧ (p.1 ≠ key → p ∈ h.readTop nlAddr))
    ∧ (mergeStepH h nlAddr modAddr key).length = h.length
    ∧ (mergeStepH h nlAddr modAddr key).readTop modAddr = h.readTop modAddr := by
  cases hm : PyDict.lookup (h.readTop modAddr) key with
  | none =>
    have hrw : mergeStepH h nlAddr modAddr key = h := by simp only [mergeStepH, hm]
    rw [hrw]
    exact ⟨fun b _ => rfl, fun p hp => ⟨Or.inl hp, fun _ => hp⟩, rfl, rfl⟩
  | some mAddr =>
    cases hs : PyDict.lookup (h.readTop nlAddr) key with
    | some secAddr =>
      have hsb := hinv (key, secAddr) (PyDict.lookup_mem _ _ _ hs) hkmem
      simp only [mergeStepH, hm, hs]
      refine ⟨?_, ?_, Heap.length_write _ _ _, ?_⟩
      · intro b hb
        exact Heap.getElem?_write_ne h secAddr b _ (by omega)
      · intro p hp
        rw [Heap.readTop_write_ne h secAddr nlAddr _ (by omega)] at hp
        exact ⟨Or.inl hp, fun _ => hp⟩
      · exact Heap.readTop_write_ne h secAddr modAddr _ (by omega)
    | none =>
      simp only [mergeStepH, hm, hs]
      refine ⟨?_, ?_, Heap.length_write _ _ _, ?_⟩
      · intro b hb
        exact Heap.getElem?_write_ne h nlAddr b _ (by omega)
      · intro p hp
        rw [Heap.readTop_write_self h nlAddr _ hlen] at hp
        rcases PyDict.mem_set _ _ _ _ hp with hp' | hp'
        · refine ⟨Or.inr ?_, fun hne => absurd ?_ hne⟩
          · have : (key, mAddr) ∈ h.readTop modAddr := PyDict.lookup_mem _ _ _ hm
            exact hp' ▸ List.mem_map_of_mem Prod.snd this
          · rw [hp']
        · exact ⟨Or.inl hp', fun _ => hp'⟩
      · exact Heap.readTop_write_ne h nlAddr modAddr _ (by omega)

/-- The heap merge loop over a list of distinct keys: it never writes below
`h0len`, only puts fresh or override-provided addresses into the namelist
top dict, and keeps the heap length. -/
theorem mergeLoopH_master (h0len nlAddr modAddr : Nat) (keys : List String)
    (hmod : modAddr < h0len) (hnl : h0len ≤ nlAddr) :
    ∀ h : Heap, nlAddr < h.length → keys.Nodup →
    (∀ p ∈ h.readTop nlAddr, p.1 ∈ keys → h0len ≤ p.2 ∧ p.2 < nlAddr) →
    (∀ b, b < h0len → (mergeLoopH h nlAddr modAddr keys)[b]? = h[b]?)
    ∧ (∀ p ∈ (mergeLoopH h nlAddr modAddr keys).readTop nlAddr,
        p ∈ h.readTop nlAddr ∨ p.2 ∈ (h.readTop modAddr).map Prod.snd)
    ∧ (mergeLoopH h nlAddr modAddr keys).length = h.length := by
  induction keys with
  | nil =>
    intro h _ _ _
    exact ⟨fun b _ => rfl, fun p hp => Or.inl hp, rfl⟩
  | cons key rest ih =>
    intro h hlen hnd hinv
    have hkey : key ∉ rest := (List.nodup_cons.mp hnd).1
    have hnd' : rest.Nodup := (List.nodup_cons.mp hnd).2
    obtain ⟨hs1, hs2, hs3, hs4⟩ :=
      mergeStepH_spec h0len nlAddr modAddr key (key :: rest) h hmod hnl hlen hinv
        (List.mem_cons_self _ _)
    have hinv' : ∀ p ∈ (mergeStepH h nlAddr modAddr key).readTop nlAddr,
        p.1 ∈ rest → h0len ≤ p.2 ∧ p.2 < nlAddr := by
      intro p hp hp1
      have hne : p.1 ≠ key := fun hcontra => hkey (hcontra ▸ hp1)
      exact hinv p ((hs2 p hp).2 hne) (List.mem_cons_of_mem _ hp1)
    obtain ⟨i1, i2, i3⟩ := ih (mergeStepH h nlAddr modAddr key)
      (by rw [hs3]; exact hlen) hnd' hinv'
    simp only [mergeLoopH]
    refine ⟨?_, ?_, ?_⟩
    · intro b hb
      rw [i1 b hb, hs1 b hb]
    · intro p hp
      rcases i2 p hp with hp' | hp'
      · rcases (hs2 p hp').1 with h'' | h''
        · exact Or.inl h''
        · exact Or.inr h''
      · rw [hs4] at hp'
        exact Or.inr hp'
    · rw [i3, hs3]

theorem allocEntries_mem (base : Nat) (sections : NL) (p : String × Nat)
    (hp : p ∈ allocEntries base sections) :
    base ≤ p.2 ∧ p.2 < base + sections.length := by
  induction sections generalizing base with
  | nil => cases hp
  | cons s rest ih =>
    rcases List.mem_cons.mp hp with h' | h'
    · subst h'
      simp only [List.length_cons]
      omega
    · have := ih (base + 1) h'
      simp only [List.length_cons]
      omega

theorem allocNamelist_spec (h : Heap) (sections : NL) :
    (allocNamelist h sections).2 = h.length + sections.length
    ∧ (allocNamelist h sections).1.length = h.length + sections.length + 1
    ∧ (∀ b, b < h.length → (allocNamelist h sections).1[b]? = h[b]?)
    ∧ (allocNamelist h sections).1.readTop (h.length + sections.length) =
        allocEntries h.length sections := by
  refine ⟨rfl, ?_, ?_, ?_⟩
  · simp only [allocNamelist, List.length_append, List.length_map, List.length_cons,
      List.length_nil]
  · intro b hb
    show ((h ++ sections.map (fun s => Obj.sec s.2))
        ++ [Obj.top (allocEntries h.length sections)])[b]? = h[b]?
    rw [List.getElem?_append_left (by simp [List.length_append]; omega),
      List.getElem?_append_left hb]
  · show Heap.readTop ((h ++ sections.map (fun s => Obj.sec s.2))
        ++ [Obj.top (allocEntries h.length sections)]) (h.length + sections.length) = _
    unfold Heap.readTop
    rw [List.getElem?_append_right (by simp [List.length_append])]
    simp [List.length_append]

/-- The heap-model constructor: it leaves every pre-existing address
untouched (in particular the override dict and anything any earlier
experiment's namelist can reach), allocates its namelist top dict at the
next fresh address, and only ever puts fresh or override-provided section
addresses into that top dict. -/
theorem initExpH_spec (h : Heap) (name : String) (modAddr : Nat)
    (hmod : modAddr < h.length)
    (hnd : ((h.readTop modAddr).map Prod.fst).Nodup) :
    (∀ b, b < h.length → (initExpH h name modAddr).1[b]? = h[b]?)
    ∧ (initExpH h name modAddr).2.nlAddr = h.length + default_namelist.length
    ∧ (initExpH h name modAddr).1.length = h.length + default_namelist.length + 1
    ∧ (∀ p ∈ (initExpH h name modAddr).1.readTop (initExpH h name modAddr).2.nlAddr,
        (h.length ≤ p.2 ∧ p.2 < h.length + default_namelist.length)
        ∨ p.2 ∈ (h.readTop modAddr).map Prod.snd) := by
  obtain ⟨ha2, halen, haframe, hatop⟩ := allocNamelist_spec h default_namelist
  have hmodtop : (allocNamelist h default_namelist).1.readTop modAddr = h.readTop modAddr :=
    Heap.readTop_congr _ _ _ (haframe modAddr hmod)
  have hmaster := mergeLoopH_master h.length (h.length + default_namelist.length) modAddr
    (((allocNamelist h default_namelist).1.readTop modAddr).map Prod.fst)
    hmod (by omega) (allocNamelist h default_namelist).1
    (by rw [halen]; omega)
    (by rw [hmodtop]; exact hnd)
    (by
      rw [hatop]
      intro p hp _
      exact allocEntries_mem h.length default_namelist p hp)
  obtain ⟨hm1, hm2, hm3⟩ := hmaster
  have hexp1 : (initExpH h name modAddr).1 =
      mergeLoopH (allocNamelist h default_namelist).1
        (h.length + default_namelist.length) modAddr
        (((allocNamelist h default_namelist).1.readTop modAddr).map Prod.fst) := by
    simp only [initExpH, ha2]
  have hexp2 : (initExpH h name modAddr).2.nlAddr = h.length + default_namelist.length := by
    simp only [initExpH, ha2]
  refine ⟨?_, hexp2, ?_, ?_⟩
  · intro b hb
    rw [hexp1, hm1 b hb, haframe b hb]
  · rw [hexp1, hm3, halen]
  · intro p hp
    rw [hexp1, hexp2] at hp
    rcases hm2 p hp with hp' | hp'
    · rw [hatop] at hp'
      exact Or.inl (allocEntries_mem h.length default_namelist p hp')
    · rw [hmodtop] at hp'
      exact Or.inr hp'

/-- C10: the override mapping passed as `namelist_mod` is never mutated by
the merge: across any sequence of constructions against the same override
dict, its top-level dict and every one of its section dicts hold exactly
what they held before; in particular the shared mutable function default
`{}` remains empty across any sequence of constructions that omit
`namelist_mod`. -/
theorem claim10_override_mapping_never_mutated (h : Heap) (modAddr : Nat)
    (names : List String) (hv : validModRef h modAddr) :
    (constructSeq h modAddr names).readTop modAddr = h.readTop modAddr
    ∧ (∀ p ∈ h.readTop modAddr,
        (constructSeq h modAddr names).readSec p.2 = h.readSec p.2)
    ∧ (h.readTop modAddr = [] →
        (constructSeq h modAddr names).readTop modAddr = []) := by
  induction names generalizing h with
  | nil => exact ⟨rfl, fun p _ => rfl, fun he => he⟩
  | cons name rest ih =>
    obtain ⟨hm, hnd, hsecs⟩ := hv
    obtain ⟨hframe, hnlv, hlenv, htops⟩ := initExpH_spec h name modAddr hm hnd
    have htop' : (initExpH h name modAddr).1.readTop modAddr = h.readTop modAddr :=
      Heap.readTop_congr _ _ _ (hframe modAddr hm)
    have hv' : validModRef (initExpH h name modAddr).1 modAddr := by
      refine ⟨by omega, by rw [htop']; exact hnd, ?_⟩
      intro p hp
      rw [htop'] at hp
      have := hsecs p hp
      omega
    obtain ⟨i1, i2, i3⟩ := ih (initExpH h name modAddr).1 hv'
    simp only [constructSeq]
    refine ⟨by rw [i1, htop'], ?_, ?_⟩
    · intro p hp
      have hsec' : (initExpH h name modAddr).1.readSec p.2 = h.readSec p.2 :=
        Heap.readSec_congr _ _ _ (hframe p.2 (hsecs p hp))
      rw [i2 p (by rw [htop']; exact hp), hsec']
    · intro he
      rw [i1, htop', he]

/-- Witness for C10: two constructions omitting `namelist_mod` leave the
shared default dict (allocated empty at address 0) empty. -/
theorem claim10_override_mapping_never_mutated_witness :
    Heap.readTop (constructSeq [Obj.top []] 0 ["exp_a", "exp_b"]) 0 =
      Heap.readTop [Obj.top []] 0 :=
  (claim10_override_mapping_never_mutated [Obj.top []] 0 ["exp_a", "exp_b"]
    (by decide)).1

/-- C3: constructing a second experiment (any name, any override dict) after
a first one leaves the first experiment's configuration mapping exactly as
it was: its namelist top-level dict and every section dict it can reach are
unchanged — no state leaks between constructions through shared mutable
default arguments. -/
theorem claim3_no_cross_contamination (h : Heap) (name1 name2 : String)
    (modAddr1 modAddr2 : Nat) (_hne : name1 ≠ name2)
    (hv1 : validModRef h modAddr1)
    (hv2 : validModRef (initExpH h name1 modAddr1).1 modAddr2) :
    (initExpH (initExpH h name1 modAddr1).1 name2 modAddr2).1.readTop
        (initExpH h name1 modAddr1).2.nlAddr =
      (initExpH h name1 modAddr1).1.readTop (initExpH h name1 modAddr1).2.nlAddr
    ∧ ∀ p ∈ (initExpH h name1 modAddr1).1.readTop (initExpH h name1 modAddr1).2.nlAddr,
        (initExpH (initExpH h name1 modAddr1).1 name2 modAddr2).1.readSec p.2 =
          (initExpH h name1 modAddr1).1.readSec p.2 := by
  obtain ⟨hm1, hnd1, hsecs1⟩ := hv1
  obtain ⟨hm2, hnd2, hsecs2⟩ := hv2
  obtain ⟨f1, nl1, len1, tops1⟩ := initExpH_spec h name1 modAddr1 hm1 hnd1
  obtain ⟨f2, nl2, len2, tops2⟩ :=
    initExpH_spec (initExpH h name1 modAddr1).1 name2 modAddr2 hm2 hnd2
  have hnl1lt : (initExpH h name1 modAddr1).2.nlAddr <
      (initExpH h name1 modAddr1).1.length := by
    rw [nl1, len1]
    omega
  constructor
  · exact Heap.readTop_congr _ _ _ (f2 _ hnl1lt)
  · intro p hp
    have hbound : p.2 < (initExpH h name1 modAddr1).1.length := by
      rcases tops1 p hp with ⟨_, hb⟩ | hb
      · rw [len1]
        omega
      · obtain ⟨q, hq, hq2⟩ := List.mem_map.mp hb
        have := hsecs1 q hq
        rw [len1]
        omega
    exact Heap.readSec_congr _ _ _ (f2 _ hbound)

/-- Witness for C3: two concrete constructions against the shared empty
override dict; the first experiment's namelist top dict is unchanged by the
second construction. -/
theorem claim3_no_cross_contamination_witness :
    (initExpH (initExpH [Obj.top []] "exp_a" 0).1 "exp_b" 0).1.readTop
        (initExpH [Obj.top []] "exp_a" 0).2.nlAddr =
      (initExpH [Obj.top []] "exp_a" 0).1.readTop
        (initExpH [Obj.top []] "exp_a" 0).2.nlAddr :=
  (claim3_no_cross_contamination [Obj.top []] "exp_a" "exp_b" 0 0
    (by decide) (by decide) (by decide)).1

end Superrotation

